import Mathlib

/-!
Verification development for the tei-littre enrichment core.

This file gives a shallow embedding, in Lean 4, of the four core components
of the tei-littre pipeline (role classifier, locution extractor, scope
resolver, review-flag collector) together with the shared data model, and
proves or refutes the specification's claims about them.

Conventions of the embedding:
* Python dataclasses become Lean structures; the mutually/self nested ones
  (`Indent`, whose children are `Indent`s, and `Variante`, whose
  `sub_variantes` are `Variante`s) become single-constructor inductives with
  accessor functions.
* In-place mutation becomes pure value transformation; the `ScopeLog`
  accumulator is threaded explicitly.
* Python `float` confidences are exact decimals from a fixed small set, so
  they are embedded as exact hundredths (`Nat`): `0.4` is `40`, `1.0` is
  `100`, and the threshold comparison `conf <= 0.5` becomes `conf ≤ 50`.
  All comparisons performed by the source on these values are preserved
  exactly by this scaling.
* Python regexes are embedded as executable matchers over `List Char`,
  specialised per pattern, preserving anchoring, case-insensitivity flags,
  greedy/lazy semantics and the exact literal alternatives of each pattern.
* Python list indexing that could raise is embedded through `Option`
  (`List.getLast?`) at exactly the places the source indexes, so that
  "never fails" claims are meaningful.
-/

namespace TeiLittre

/-! ## Data model (src/tei_littre/model.py)

The `Variante` transition fields, `sub_variantes`, and the `ReviewFlag`
record are referenced throughout the code base (scope_transitions.py,
collect_flags.py, the emitters and the tests import them) but their
declarations are not present in the copy of model.py under src/; they are
modelled from the spec where indicated below. -/

inductive RubriqueType where
  | historique | etymologie | remarque | synonyme | proverbes | supplement
deriving DecidableEq, Repr

inductive IndentRole where
  | unknown
  | figurative
  | domain
  | nature_label
  | cross_reference
  | register_label
  | proverb
  | voice_transition
  | locution
  | constructional
  | elaboration
  | continuation
deriving DecidableEq, Repr

/-- The `.value` string of the Python enum member, used as dictionary key by
the flag collector. -/
def IndentRole.value : IndentRole → String
  | .unknown => "unknown"
  | .figurative => "figurative"
  | .domain => "domain"
  | .nature_label => "nature_label"
  | .cross_reference => "cross_reference"
  | .register_label => "register_label"
  | .proverb => "proverb"
  | .voice_transition => "voice_transition"
  | .locution => "locution"
  | .constructional => "constructional"
  | .elaboration => "elaboration"
  | .continuation => "continuation"

inductive ClassificationMethod where
  | deterministic | heuristic | llm | manual
deriving DecidableEq, Repr

def ClassificationMethod.value : ClassificationMethod → String
  | .deterministic => "deterministic"
  | .heuristic => "heuristic"
  | .llm => "llm"
  | .manual => "manual"

structure Citation where
  text : String
  author : String := ""
  reference : String := ""
  hide : String := ""
  resolved_author : String := ""
deriving DecidableEq, Repr

/-- The recursive `Indent` dataclass. `classification_confidence` is the
Python float stored in exact hundredths (e.g. `0.85` is `85`). -/
inductive Indent where
  | mk
      (content : String)
      (citations : List Citation)
      (children : List Indent)
      (role : IndentRole)
      (classification_method : Option ClassificationMethod)
      (classification_confidence : Option Nat)
      (canonical_form : String)

def Indent.content : Indent → String
  | .mk c _ _ _ _ _ _ => c

def Indent.citations : Indent → List Citation
  | .mk _ cit _ _ _ _ _ => cit

def Indent.children : Indent → List Indent
  | .mk _ _ ch _ _ _ _ => ch

def Indent.role : Indent → IndentRole
  | .mk _ _ _ r _ _ _ => r

def Indent.classification_method : Indent → Option ClassificationMethod
  | .mk _ _ _ _ m _ _ => m

def Indent.classification_confidence : Indent → Option Nat
  | .mk _ _ _ _ _ conf _ => conf

def Indent.canonical_form : Indent → String
  | .mk _ _ _ _ _ _ can => can

/-- Replace the children list, keeping every other field. -/
def Indent.withChildren (i : Indent) (ch : List Indent) : Indent :=
  match i with
  | .mk c cit _ r m conf can => .mk c cit ch r m conf can

/-- Assign role, classification method and confidence together, as every
assigning branch of the classifier does. -/
def Indent.assign (i : Indent) (r : IndentRole) (m : ClassificationMethod)
    (conf : Nat) : Indent :=
  match i with
  | .mk c cit ch _ _ _ can => .mk c cit ch r (some m) (some conf) can

/-- Set the canonical form, keeping every other field. -/
def Indent.withCanonical (i : Indent) (can : String) : Indent :=
  match i with
  | .mk c cit ch r m conf _ => .mk c cit ch r m conf can

structure Rubrique where
  type : RubriqueType
  content : String
  citations : List Citation := []
  indents : List Indent := []

/-- The `Variante` dataclass. The first seven fields are declared in
src/tei_littre/model.py.

Modelled from the spec: the last five fields (`transition_type`,
`transition_content`, `transition_form`, `transition_pos`,
`sub_variantes`) are absent from the model.py under src/ although
scope_transitions.py sets them on synthetic containers and scope_all,
collect_flags.py and the emitters read them on every Variante; per the
spec's data model a Variante carries "only when acting as a scope
container ... a transition kind (strong/medium), the governing label's
original content, and (for strong) the derived new headword-form and
part-of-speech, plus the list of governed sub-Variantes", so they default
to empty on every non-container Variante. -/
inductive Variante where
  | mk
      (content : String)
      (num : Option Nat)
      (is_resume : Bool)
      (is_supplement : Bool)
      (citations : List Citation)
      (indents : List Indent)
      (rubriques : List Rubrique)
      (transition_type : String)
      (transition_content : String)
      (transition_form : String)
      (transition_pos : String)
      (sub_variantes : List Variante)

def Variante.content : Variante → String
  | .mk c _ _ _ _ _ _ _ _ _ _ _ => c

def Variante.num : Variante → Option Nat
  | .mk _ n _ _ _ _ _ _ _ _ _ _ => n

def Variante.is_resume : Variante → Bool
  | .mk _ _ r _ _ _ _ _ _ _ _ _ => r

def Variante.is_supplement : Variante → Bool
  | .mk _ _ _ s _ _ _ _ _ _ _ _ => s

def Variante.citations : Variante → List Citation
  | .mk _ _ _ _ cit _ _ _ _ _ _ _ => cit

def Variante.indents : Variante → List Indent
  | .mk _ _ _ _ _ ind _ _ _ _ _ _ => ind

def Variante.rubriques : Variante → List Rubrique
  | .mk _ _ _ _ _ _ rub _ _ _ _ _ => rub

def Variante.transition_type : Variante → String
  | .mk _ _ _ _ _ _ _ t _ _ _ _ => t

def Variante.transition_content : Variante → String
  | .mk _ _ _ _ _ _ _ _ tc _ _ _ => tc

def Variante.transition_form : Variante → String
  | .mk _ _ _ _ _ _ _ _ _ tf _ _ => tf

def Variante.transition_pos : Variante → String
  | .mk _ _ _ _ _ _ _ _ _ _ tp _ => tp

def Variante.sub_variantes : Variante → List Variante
  | .mk _ _ _ _ _ _ _ _ _ _ _ sub => sub

/-- Replace the indents list, keeping every other field. -/
def Variante.withIndents (v : Variante) (ind : List Indent) : Variante :=
  match v with
  | .mk c n r s cit _ rub t tc tf tp sub => .mk c n r s cit ind rub t tc tf tp sub

/-- `Variante(content="")`: a fresh Variante with every defaulted field at
its default value (as in the dataclass declaration plus the spec-modelled
container fields). -/
def Variante.fresh (content : String) : Variante :=
  .mk content none false false [] [] [] "" "" "" "" []

structure Entry where
  headword : String
  xml_id : String := ""
  homograph_index : Option Nat := none
  is_supplement : Bool := false
  pronunciation : String := ""
  pos : String := ""
  body_variantes : List Variante := []
  rubriques : List Rubrique := []
  resume_text : String := ""
  source_letter : String := ""

/-- A value in a ReviewFlag's structured context map. -/
inductive CtxVal where
  | str : String → CtxVal
  | nat : Nat → CtxVal
  | null : CtxVal
deriving DecidableEq, Repr

/-- Modelled from the spec: the `ReviewFlag` record is imported from
tei_littre.model by collect_flags.py and the tests, but its declaration is
absent from the model.py under src/. Per the spec it holds "entry
reference, headword, originating phase, flag type, human-readable reason,
structured context map, and nullable resolution fields (written only by
external review tooling, never by this core)"; the resolution fields are
never touched by the core and are omitted. The context map is an ordered
association list; confidences appear in hundredths like everywhere in this
embedding. -/
structure ReviewFlag where
  entry_id : String
  headword : String
  phase : String
  flag_type : String
  reason : String
  context : List (String × CtxVal) := []
deriving DecidableEq, Repr

/-- The per-run counters of the scope resolver (scope_transitions.ScopeLog). -/
structure ScopeLog where
  strong_scoped : Nat := 0
  medium_scoped : Nat := 0
  intra_grouped : Nat := 0
  zero_scope : Nat := 0
  ambiguous : List String := []

/-! ## String utilities (classify_indents.strip_tags and regex helpers) -/

/-- Characters Python's `str.strip()` and the regex class `\s` treat as
whitespace (the ones that can occur in this corpus). -/
def isPySpace (c : Char) : Bool :=
  c = ' ' ∨ c = '\t' ∨ c = '\n' ∨ c = '\r' ∨ c = '\x0b' ∨ c = '\x0c'

def pyStripList (s : List Char) : List Char :=
  ((s.dropWhile isPySpace).reverse.dropWhile isPySpace).reverse

/-- Python `str.strip()`. -/
def pyStrip (s : String) : String :=
  ⟨pyStripList s.toList⟩

/-- One left-to-right pass removing every non-overlapping match of the
regex `<[^>]+>` (a `<`, at least one non-`>` character, then `>`), as
`re.sub(r"<[^>]+>", "", markup)` does. If the candidate tag body is empty
(`<>`) or unterminated, the `<` is kept and scanning resumes after it.
The fuel argument only bounds the recursion (each step consumes at least
one character, so fuel `s.length` is always enough); it keeps the
definition structurally recursive and hence kernel-computable. -/
def stripTagsAux : Nat → List Char → List Char
  | _, [] => []
  | 0, s => s
  | fuel + 1, c :: rest =>
    if c = '<' ∧ (rest.takeWhile (· ≠ '>')) ≠ [] ∧
        rest.drop (rest.takeWhile (· ≠ '>')).length ≠ [] then
      stripTagsAux fuel (rest.drop ((rest.takeWhile (· ≠ '>')).length + 1))
    else
      c :: stripTagsAux fuel rest

/-- classify_indents.strip_tags: `re.sub(r"<[^>]+>", "", markup).strip()`. -/
def strip_tags (markup : String) : String :=
  pyStrip ⟨stripTagsAux markup.toList.length markup.toList⟩

/-- Python's `needle in hay` substring test. -/
def containsSub (needle : String) (hay : String) : Bool :=
  go needle.toList hay.toList
where
  go (n : List Char) : List Char → Bool
    | [] => n.isEmpty
    | c :: t => n.isPrefixOf (c :: t) || go n t

/-- The uppercase character class `[A-ZÉÈÊÀÂÎÏÔÙÛÜÇ]` used by the scope
resolver's transition patterns and the extractor's reflexive pattern. -/
def isFrUpper (c : Char) : Bool :=
  ('A' ≤ c ∧ c ≤ 'Z') ∨
    c ∈ ['É', 'È', 'Ê', 'À', 'Â', 'Î', 'Ï', 'Ô', 'Ù', 'Û', 'Ü', 'Ç']

/-- Case folding for the `re.IGNORECASE` patterns: ASCII letters plus the
accented letterforms occurring in the patterns and the corpus alphabet. -/
def frLower (c : Char) : Char :=
  if 'A' ≤ c ∧ c ≤ 'Z' then Char.ofNat (c.toNat + 32)
  else
    match c with
    | 'É' => 'é' | 'È' => 'è' | 'Ê' => 'ê' | 'Ë' => 'ë'
    | 'À' => 'à' | 'Â' => 'â' | 'Î' => 'î' | 'Ï' => 'ï'
    | 'Ô' => 'ô' | 'Ù' => 'ù' | 'Û' => 'û' | 'Ü' => 'ü'
    | 'Ç' => 'ç' | 'Œ' => 'œ'
    | _ => c

/-- Case-insensitively consume the literal `lit` from the front of `s`,
returning the rest. -/
def dropPrefixCI : List Char → List Char → Option (List Char)
  | [], s => some s
  | _ :: _, [] => none
  | l :: ls, c :: cs => if frLower l = frLower c then dropPrefixCI ls cs else none

/-- Case-sensitively consume the literal `lit` from the front of `s`. -/
def dropPrefixCS : List Char → List Char → Option (List Char)
  | [], s => some s
  | _ :: _, [] => none
  | l :: ls, c :: cs => if l = c then dropPrefixCS ls cs else none

def startsWithCI (lit : String) (s : List Char) : Bool :=
  (dropPrefixCI lit.toList s).isSome

def startsWithCS (lit : String) (s : List Char) : Bool :=
  (dropPrefixCS lit.toList s).isSome

/-- `re.match` against an alternation of plain literals, IGNORECASE. -/
def startsWithAnyCI (lits : List String) (s : List Char) : Bool :=
  lits.any (startsWithCI · s)

/-- `re.match` against an alternation of plain literals, case-sensitive. -/
def startsWithAnyCS (lits : List String) (s : List Char) : Bool :=
  lits.any (startsWithCS · s)

/-! ## Pattern embeddings

Each Python `re` pattern used by the core is embedded as an executable
matcher. `re.match` anchors at the start of the string; `re.search` scans
every start position left to right. `\s+`/`\s*` before a literal that
starts with a non-whitespace character are deterministic (consume the
maximal whitespace run), which every such occurrence below satisfies. -/

/-- A token of an anchored pattern: literal (case-sensitive or not),
whitespace (`\s+` or `\s*`), or an alternation of case-sensitive
literals. -/
inductive PatTok where
  | lit : String → PatTok
  | litCI : String → PatTok
  | ws1 : PatTok
  | ws0 : PatTok
  | alt : List String → PatTok

/-- Match a token sequence against the front of `s` (the rest of `s` is
unconstrained, as with `re.match`). -/
def matchToks : List PatTok → List Char → Bool
  | [], _ => true
  | .lit l :: ts, s =>
    match dropPrefixCS l.toList s with
    | some r => matchToks ts r
    | none => false
  | .litCI l :: ts, s =>
    match dropPrefixCI l.toList s with
    | some r => matchToks ts r
    | none => false
  | .ws1 :: ts, s =>
    match s with
    | [] => false
    | c :: r => isPySpace c && matchToks ts (r.dropWhile isPySpace)
  | .ws0 :: ts, s => matchToks ts (s.dropWhile isPySpace)
  | .alt ls :: ts, s =>
    ls.any fun l =>
      match dropPrefixCS l.toList s with
      | some r => matchToks ts r
      | none => false

/-- classify_indents.register_pattern: anchored alternation of register
marker literals, IGNORECASE. -/
def register_pattern (plain : String) : Bool :=
  startsWithAnyCI
    ["Populaire", "Familière", "Familièrement", "Vulgaire", "Vulgairement",
     "Triviale", "Trivialemen", "Bas", "Ironiquement", "Plaisamment",
     "Burlesque", "Poétiquement", "Par euphémisme", "Par exagération",
     "Par ironie", "Par dérision", "Par extension", "Par analogie",
     "Par métaphore", "Par plaisanterie", "Par antiphrase", "Néologisme"]
    plain.toList

/-- classify_indents.proverb_pattern: `^(Prov\.|Proverbe|Proverbialement)`,
IGNORECASE. -/
def proverb_pattern (plain : String) : Bool :=
  startsWithAnyCI ["Prov.", "Proverbe", "Proverbialement"] plain.toList

/-- classify_indents.voice_transition_pattern (case-sensitive). -/
def voice_transition_pattern (plain : String) : Bool :=
  let s := plain.toList
  matchToks [.lit "V.", .ws0, .alt ["n", "a", "réfl"]] s ||
  matchToks [.lit "Se", .ws1, .lit "conjugue"] s ||
  startsWithAnyCS
    ["Absolument", "Substantivement", "Adverbialement", "Adjectivement",
     "Intransitivement", "Neutralement", "Impersonnellement", "Activement"] s ||
  matchToks [.lit "Au", .ws1, .lit "pluriel"] s ||
  matchToks [.lit "Au", .ws1, .lit "féminin"] s ||
  matchToks [.lit "Au", .ws1, .lit "singulier"] s ||
  matchToks [.lit "Au", .ws1, .lit "masc"] s ||
  matchToks [.lit "Au", .ws1, .lit "fém"] s ||
  matchToks [.lit "Avec", .ws1, .lit "un", .ws1, .lit "nom", .ws1, .lit "de"] s

/-- classify_indents.locution_intro_pattern:
`^(<exemple>|Loc\.\s|Locution)`, IGNORECASE, applied to the raw content. -/
def locution_intro_pattern (c : String) : Bool :=
  let s := c.toList
  startsWithCI "<exemple>" s ||
  matchToks [.litCI "Loc.", .ws1] s ||
  startsWithCI "Locution" s

/-- classify_indents.definition_like_pattern, with its nested groups
expanded into the full list of literal alternatives, IGNORECASE. -/
def definition_like_pattern (plain : String) : Bool :=
  startsWithAnyCI
    ["Se dit", "Il se dit", "On dit", "On appelle", "Se disait",
     "Qui se dit", "Il s'est dit", "Celui qui", "Celle qui",
     "Ce qui", "Chose qui", "Action de", "État de", "Qualité de",
     "Nom donné", "Nom que l'on donne", "Terme de", "Terme d'",
     "En terme de", "En terme d'", "En termes de", "En termes d'"]
    plain.toList

/-- classify_indents.cross_ref_heuristic:
`^(Il est|C'est|On dit|Se dit).{0,40}<a ref=` — an opener literal, then up
to 40 non-newline characters, then the link opener. -/
def cross_ref_heuristic (c : String) : Bool :=
  ["Il est", "C'est", "On dit", "Se dit"].any fun p =>
    match dropPrefixCS p.toList c.toList with
    | some r =>
      (List.range 41).any fun k =>
        (r.take k).all (· ≠ '\n') && "<a ref=".toList.isPrefixOf (r.drop k)
    | none => false

/-- `re.match(r"^(voy\.|V\.|Voy\.|voyez)", plain, re.IGNORECASE)` in
classify_deterministic. -/
def voy_prefix_pattern (plain : String) : Bool :=
  startsWithAnyCI ["voy.", "V.", "Voy.", "voyez"] plain.toList

/-- `re.search(r",\s*voy\.\s*$", plain)` in classify_deterministic: a comma,
optional whitespace, `voy.`, optional whitespace, end of string. -/
def voy_trailing_pattern (plain : String) : Bool :=
  let s := plain.toList
  (List.range (s.length + 1)).any fun i =>
    match s.drop i with
    | ',' :: r =>
      match dropPrefixCS "voy.".toList (r.dropWhile isPySpace) with
      | some r2 => (r2.dropWhile isPySpace).isEmpty
      | none => false
    | _ => false

/-- extract_locutions.reflexive_pattern:
`^S'[A-ZÉÈÊÀÂÎÏÔÙÛÜÇ].*,\s*v\.\s*réfl` — `.*` cannot cross a newline, the
rest may. -/
def reflexive_pattern (plain : String) : Bool :=
  match plain.toList with
  | 'S' :: '\'' :: c :: rest =>
    isFrUpper c &&
      (List.range (rest.length + 1)).any fun i =>
        (rest.take i).all (· ≠ '\n') &&
        match rest.drop i with
        | ',' :: r =>
          match dropPrefixCS "v.".toList (r.dropWhile isPySpace) with
          | some r2 => "réfl".toList.isPrefixOf (r2.dropWhile isPySpace)
          | none => false
        | _ => false
  | _ => false

/-- The inner text of the first match of
`re.compile(r"<exemple>(.*?)</exemple>").search(content)`: at the leftmost
`<exemple>` that is followed (with no intervening newline) by
`</exemple>`, the shortest such inner span. Structural recursion on the
scanned suffix. -/
def exemple_search : List Char → Option (List Char)
  | [] => none
  | c :: t =>
    if "<exemple>".toList.isPrefixOf (c :: t) then
      let body := t.drop 8
      match
        (List.range (body.length + 1)).find? fun i =>
          (body.take i).all (· ≠ '\n') &&
            "</exemple>".toList.isPrefixOf (body.drop i)
      with
      | some i => some (body.take i)
      | none => exemple_search t
    else
      exemple_search t

/-- Group 2 of scope_transitions.strong_transition_pattern after the
comma: `\s+(v\.\s*.+)`. `\s+` must consume the maximal whitespace run
(`v` is not whitespace); `.+` is greedy up to a newline or the end; when
everything after `v.` is whitespace, `\s*` backtracks until `.+` can take
at least one non-newline character. Returns group 2's characters. -/
def strongPosTail (u : List Char) : Option (List Char) :=
  let w := u.takeWhile isPySpace
  if w.isEmpty then none
  else
    match dropPrefixCS "v.".toList (u.drop w.length) with
    | none => none
    | some u2 =>
      let w2 := u2.takeWhile isPySpace
      let m := u2.drop w2.length
      if m ≠ [] then
        some ('v' :: '.' :: (w2 ++ m.takeWhile (· ≠ '\n')))
      else
        match (List.range w2.length).reverse.find? (fun k => w2.getD k ' ' ≠ '\n') with
        | some k => some ('v' :: '.' :: (w2.take k ++ (w2.drop k).takeWhile (· ≠ '\n')))
        | none => none

/-- scope_transitions.strong_transition_pattern:
`^(S'[A-ZÉÈÊÀÂÎÏÔÙÛÜÇ].+),\s+(v\.\s*.+)` with Python's greedy group-1
semantics: the comma is the rightmost one (with at least one `.+`
character before it and no newline) whose tail admits the rest of the
pattern. Returns the two capture groups. -/
def strong_transition_pattern (s : List Char) : Option (List Char × List Char) :=
  match s with
  | 'S' :: '\'' :: c :: rest =>
    if isFrUpper c then
      ((List.range rest.length).reverse.filterMap fun j =>
        if 1 ≤ j ∧ rest.getD j ' ' = ',' ∧ (rest.take j).all (· ≠ '\n') then
          match strongPosTail (rest.drop (j + 1)) with
          | some g2 => some (('S' :: '\'' :: c :: rest.take j, g2))
          | none => none
        else none).head?
    else none
  | _ => none

/-- Word character for Python's `\b` (letters of the corpus alphabet,
digits, underscore). -/
def isWordChar (c : Char) : Bool :=
  c.isAlphanum || c = '_' ||
    c ∈ ['É', 'È', 'Ê', 'Ë', 'À', 'Â', 'Î', 'Ï', 'Ô', 'Ù', 'Û', 'Ü', 'Ç', 'Œ',
         'é', 'è', 'ê', 'ë', 'à', 'â', 'î', 'ï', 'ô', 'ù', 'û', 'ü', 'ç', 'œ']

/-- The POS alternation of scope_transitions.form_pos_pattern together
with its trailing word boundary:
`(v\.\s*(?:n|a|réfl)|s\.\s*[mf]|adj)\b`, tried in the pattern's order.
Returns group 2's characters. -/
def formPosAlt (u : List Char) : Option (List Char) :=
  let boundary : List Char → Bool := fun r =>
    match r with
    | [] => true
    | d :: _ => !isWordChar d
  let branchV :=
    match dropPrefixCS "v.".toList u with
    | some u2 =>
      let w := u2.takeWhile isPySpace
      let r := u2.drop w.length
      (["n", "a", "réfl"].filterMap fun (l : String) =>
        if l.toList.isPrefixOf r ∧ boundary (r.drop l.toList.length) then
          some ('v' :: '.' :: (w ++ l.toList))
        else none).head?
    | none => none
  let branchS :=
    match dropPrefixCS "s.".toList u with
    | some u2 =>
      let w := u2.takeWhile isPySpace
      match u2.drop w.length with
      | d :: r2 => if (d = 'm' ∨ d = 'f') ∧ boundary r2 then some ('s' :: '.' :: (w ++ [d])) else none
      | [] => none
    | none => none
  let branchAdj :=
    match dropPrefixCS "adj".toList u with
    | some r2 => if boundary r2 then some "adj".toList else none
    | none => none
  (branchV.or (branchS.or branchAdj))

/-- scope_transitions.form_pos_pattern:
`^([A-ZÉÈÊÀÂÎÏÔÙÛÜÇ][A-ZÉÈÊÀÂÎÏÔÙÛÜÇ '-]+),\s+(v\.\s*(?:n|a|réfl)|s\.\s*[mf]|adj)\b`.
The character class of group 1 cannot contain a comma, so the greedy run
ends exactly at the first character outside the class, which must be the
comma; no backtracking on group 1 is possible. -/
def form_pos_pattern (s : List Char) : Option (List Char × List Char) :=
  match s with
  | [] => none
  | c :: rest =>
    if isFrUpper c then
      let run := rest.takeWhile fun d => isFrUpper d ∨ d = ' ' ∨ d = '\'' ∨ d = '-'
      if run.isEmpty then none
      else
        match rest.drop run.length with
        | ',' :: after =>
          let w := after.takeWhile isPySpace
          if w.isEmpty then none
          else
            match formPosAlt (after.drop w.length) with
            | some g2 => some ((c :: run, g2))
            | none => none
        | _ => none
    else none

/-- scope_transitions.parse_strong_transition: try the strong pattern,
then the form/part-of-speech pattern, stripping both captured groups. -/
def parse_strong_transition (plain : String) : Option (String × String) :=
  match strong_transition_pattern plain.toList with
  | some (g1, g2) => some ((pyStrip ⟨g1⟩, pyStrip ⟨g2⟩))
  | none =>
    match form_pos_pattern plain.toList with
    | some (g1, g2) => some ((pyStrip ⟨g1⟩, pyStrip ⟨g2⟩))
    | none => none

/-! ## Role classifier (classify_indents.py) -/

/-- classify_indents.classify_deterministic (Tier A). Returns the indent
with role/method/confidence assigned when a rule fires, `none` when the
Python function returns False. -/
def classify_deterministic (indent : Indent) : Option Indent :=
  let c := indent.content
  if containsSub "<semantique type=\"indicateur\">Fig." c then
    some (indent.assign .figurative .deterministic 100)
  else if containsSub "<semantique type=\"domaine\">" c then
    some (indent.assign .domain .deterministic 100)
  else if containsSub "<nature>" c then
    some (indent.assign .nature_label .deterministic 100)
  else if containsSub "<a ref=" c ∧ (strip_tags c).length < 120 then
    let plain := strip_tags c
    if voy_prefix_pattern plain then
      some (indent.assign .cross_reference .deterministic 100)
    else if voy_trailing_pattern plain then
      some (indent.assign .cross_reference .deterministic 95)
    else none
  else none

/-- classify_indents.classify_heuristic (Tier B), the fixed-order cascade
of text-pattern rules. -/
def classify_heuristic (indent : Indent) : Option Indent :=
  let c := indent.content
  let plain := strip_tags c
  if proverb_pattern plain then
    some (indent.assign .proverb .heuristic 90)
  else if register_pattern plain then
    some (indent.assign .register_label .heuristic 85)
  else if voice_transition_pattern plain then
    some (indent.assign .voice_transition .heuristic 85)
  else if containsSub "<exemple>" c ∨ locution_intro_pattern c then
    some (indent.assign .locution .heuristic 80)
  else if containsSub "<a ref=" c ∧ cross_ref_heuristic c then
    some (indent.assign .cross_reference .heuristic 80)
  else if definition_like_pattern plain then
    some (indent.assign .elaboration .heuristic 75)
  else if startsWithCS "Fig." plain.toList then
    some (indent.assign .figurative .heuristic 90)
  else if plain.length < 100 ∧ indent.citations = [] ∧ plain.toList.contains ',' ∧
      'A' ≤ plain.toList.headD ' ' ∧ plain.toList.headD ' ' ≤ 'Z' ∧
      ¬ startsWithAnyCS
          ["Il ", "On ", "Se ", "C' ", "Qui ", "Que ", "Ce ", "La ", "Le ",
           "Les ", "Un ", "Une ", "Des "] plain.toList then
    some (indent.assign .locution .heuristic 60)
  else if indent.citations ≠ [] then
    some (indent.assign .continuation .heuristic 50)
  else if plain.length > 20 then
    some (indent.assign .elaboration .heuristic 40)
  else none

mutual

/-- classify_indents.classify_indent: Tier A, else Tier B, else recurse
into the children without assigning this node a role. -/
def classify_indent : Indent → Indent
  | .mk c cit ch r m conf can =>
    match classify_deterministic (.mk c cit ch r m conf can) with
    | some o => o
    | none =>
      match classify_heuristic (.mk c cit ch r m conf can) with
      | some o => o
      | none => .mk c cit (classify_children ch) r m conf can

def classify_children : List Indent → List Indent
  | [] => []
  | i :: is => classify_indent i :: classify_children is

end

/-- classify_indents.classify_entry: classify the top-level indents of
every body Variante (it descends into indent children via
classify_indent, but visits neither the entry's nor the variantes'
rubriques, nor any sub_variantes). -/
def classify_entry (entry : Entry) : Entry :=
  { entry with
    body_variantes := entry.body_variantes.map fun v =>
      v.withIndents (classify_children v.indents) }

/-! ## Locution extractor (extract_locutions.py) -/

/-- `plain.split(",", 1)[0].strip()`: the trimmed segment before the
first comma. -/
def commaForm (plain : String) : String :=
  pyStrip ⟨plain.toList.takeWhile (· ≠ ',')⟩

/-- extract_locutions.extract_locution. -/
def extract_locution (indent : Indent) : Indent :=
  if indent.role ≠ .locution then indent
  else
    let plain := strip_tags indent.content
    if reflexive_pattern plain then
      indent.assign .voice_transition .heuristic 90
    else
      match exemple_search indent.content.toList with
      | some inner => indent.withCanonical (pyStrip ⟨inner⟩)
      | none =>
        if ¬ plain.toList.contains ',' then indent
        else if (commaForm plain).length > 60 then indent
        else indent.withCanonical (commaForm plain)

/-! ## Scope resolver (scope_transitions.py)

`scope_inter_variante`'s scan loop advances by `1 + scope_end ≥ 1`
positions per iteration, so it is embedded with a structural fuel
argument initialised to the length of the body list (always sufficient);
the fuel-exhausted case returns `none` and is proved unreachable. The one
unguarded-looking list access of the source, `var.indents[-1]` after the
`not var.indents or ...` short-circuit, is embedded as `List.getLast?`
with an explicit failure case, so "completes without raising" is a real
statement. -/

/-- Replace the sub_variantes list, keeping every other field. -/
def Variante.withSubVariantes (v : Variante) (sub : List Variante) : Variante :=
  match v with
  | .mk c n r s cit ind rub t tc tf tp _ => .mk c n r s cit ind rub t tc tf tp sub

/-- The scope-boundary test of scope_inter_variante: the last Indent (if
any) has role voice_transition and carries no citations. This is the
compound condition of lines 98-107 and of the scope-end scan of lines
122-127 (where a Variante with no indents is skipped). -/
def isBoundary (v : Variante) : Bool :=
  match v.indents.getLast? with
  | some t => t.role = .voice_transition ∧ t.citations.isEmpty
  | none => false

/-- The synthetic container Variante built for a consumed scope:
`Variante(content="")` with transition_content set to the label's
content, then either the strong fields (parsed form and
part-of-speech) or the medium kind. -/
def mkContainer (transition : Indent) (parsed : Option (String × String))
    (governed : List Variante) : Variante :=
  match parsed with
  | some (form, pos) =>
    .mk "" none false false [] [] [] "strong" transition.content form pos governed
  | none =>
    .mk "" none false false [] [] [] "medium" transition.content "" "" governed

/-- The scan-and-splice loop of scope_inter_variante over the remaining
body suffix. `hw` is the entry's headword (used in ambiguity messages). -/
def scopeInterGo (hw : String) : Nat → List Variante → ScopeLog →
    Option (List Variante × ScopeLog)
  | _, [], log => some ([], log)
  | 0, _ :: _, _ => none
  | fuel + 1, var :: rest, log =>
    if var.indents.isEmpty then
      (scopeInterGo hw fuel rest log).map fun p => (var :: p.1, p.2)
    else
      match var.indents.getLast? with
      | none => none
      | some transition =>
        if transition.role ≠ .voice_transition then
          (scopeInterGo hw fuel rest log).map fun p => (var :: p.1, p.2)
        else if ¬ transition.citations.isEmpty then
          (scopeInterGo hw fuel rest log).map fun p => (var :: p.1, p.2)
        else
          let plain := strip_tags transition.content
          if rest.isEmpty then
            (scopeInterGo hw fuel rest
              { log with zero_scope := log.zero_scope + 1 }).map
              fun p => (var :: p.1, p.2)
          else
            let parsed := parse_strong_transition plain
            let scope_end := (rest.findIdx? isBoundary).getD rest.length
            if scope_end = 0 then
              (scopeInterGo hw fuel rest
                { log with zero_scope := log.zero_scope + 1 }).map
                fun p => (var :: p.1, p.2)
            else
              let governed := rest.take scope_end
              let var2 := var.withIndents var.indents.dropLast
              let container := mkContainer transition parsed governed
              let log2 :=
                match parsed with
                | some _ => { log with strong_scoped := log.strong_scoped + governed.length }
                | none => { log with medium_scoped := log.medium_scoped + governed.length }
              let log3 :=
                if 15 < governed.length then
                  { log2 with ambiguous := log2.ambiguous ++
                    [hw ++ ": " ++ (⟨plain.toList.take 50⟩ : String) ++ " scopes " ++
                      toString governed.length ++ " variantes"] }
                else log2
              (scopeInterGo hw fuel (rest.drop scope_end) log3).map
                fun p => (var2 :: container :: p.1, p.2)

/-- scope_transitions.scope_inter_variante. -/
def scope_inter_variante (entry : Entry) (log : ScopeLog) :
    Option (Entry × ScopeLog) :=
  (scopeInterGo entry.headword entry.body_variantes.length
    entry.body_variantes log).map
    fun p => ({ entry with body_variantes := p.1 }, p.2)

/-- An Indent opens an intra-variante group iff its role is nature_label
or voice_transition. -/
def isIntraLabel (i : Indent) : Bool :=
  i.role = .nature_label ∨ i.role = .voice_transition

/-- The while-loop of scope_intra_variante: group each maximal run of
non-label indents following a label as that label's (appended) children.
Fuel-structural; every step consumes at least one element. -/
def intraGo : Nat → List Indent → ScopeLog → List Indent × ScopeLog
  | _, [], log => ([], log)
  | 0, rest, log => (rest, log)
  | fuel + 1, indent :: rest, log =>
    if isIntraLabel indent ∧ ¬ rest.isEmpty then
      let followers := rest.takeWhile fun j => ¬ isIntraLabel j
      if followers.isEmpty then
        let p := intraGo fuel rest log
        (indent :: p.1, p.2)
      else
        let p := intraGo fuel (rest.drop followers.length)
          { log with intra_grouped := log.intra_grouped + followers.length }
        (indent.withChildren (indent.children ++ followers) :: p.1, p.2)
    else
      let p := intraGo fuel rest log
      (indent :: p.1, p.2)

/-- scope_transitions.scope_intra_variante (a list of fewer than two
indents is returned untouched). -/
def scope_intra_variante (v : Variante) (log : ScopeLog) :
    Variante × ScopeLog :=
  if v.indents.length < 2 then (v, log)
  else
    let p := intraGo v.indents.length v.indents log
    (v.withIndents p.1, p.2)

/-- The intra pass of scope_all over one entry's body: each Variante,
then each of its (one level of) sub_variantes. -/
def subsIntra : List Variante → ScopeLog → List Variante × ScopeLog
  | [], log => ([], log)
  | s :: ss, log =>
    let p := scope_intra_variante s log
    let q := subsIntra ss p.2
    (p.1 :: q.1, q.2)

def varsIntra : List Variante → ScopeLog → List Variante × ScopeLog
  | [], log => ([], log)
  | v :: vs, log =>
    let p := scope_intra_variante v log
    let q := subsIntra p.1.sub_variantes p.2
    let v3 := p.1.withSubVariantes q.1
    let r := varsIntra vs q.2
    (v3 :: r.1, r.2)

/-- scope_transitions.scope_all: the inter-variante pass followed by the
intra-variante pass over every Variante and its sub-Variantes, for every
entry, threading one ScopeLog (the summary printing is I/O and not
modelled). -/
def scope_all (entries : List Entry) : Option (List Entry × ScopeLog) :=
  go entries {}
where
  go : List Entry → ScopeLog → Option (List Entry × ScopeLog)
    | [], log => some ([], log)
    | e :: es, log => do
      let p ← scope_inter_variante e log
      let q := varsIntra p.1.body_variantes p.2
      let r ← go es q.2
      some ({ p.1 with body_variantes := q.1 } :: r.1, r.2)

/-! ## Review-flag collector (collect_flags.py) -/

def low_confidence_threshold : Nat := 50

def low_confidence_roles : List IndentRole :=
  [.locution, .figurative, .domain, .proverb, .cross_reference,
   .register_label, .voice_transition, .nature_label]

def large_scope_threshold : Nat := 15

def calibration_per_bucket : Nat := 5

def calibration_seed : Nat := 42

/-- collect_flags._all_variantes: each top-level body Variante followed by
its (one level of) sub_variantes. -/
def all_variantes (entry : Entry) : List Variante :=
  entry.body_variantes.flatMap fun v => v :: v.sub_variantes

/-- A Python int-or-None context value. -/
def ctxOptNat : Option Nat → CtxVal
  | some n => .nat n
  | none => .null

/-- `f"{conf:.2f}"` for a confidence stored in hundredths. -/
def fmtConf (n : Nat) : String :=
  toString (n / 100) ++ "." ++ (if n % 100 < 10 then "0" else "") ++
    toString (n % 100)

/-- collect_flags._indent_neighbors: the stripped text (truncated to 100)
of the previous and next sibling indents, when they exist. -/
def indent_neighbors (indents : List Indent) (index : Nat) :
    List (String × CtxVal) :=
  (if 0 < index then
    match indents.get? (index - 1) with
    | some prev => [("prev_indent",
        CtxVal.str ⟨(strip_tags prev.content).toList.take 100⟩)]
    | none => []
  else []) ++
  (if index + 1 < indents.length then
    match indents.get? (index + 1) with
    | some nxt => [("next_indent",
        CtxVal.str ⟨(strip_tags nxt.content).toList.take 100⟩)]
    | none => []
  else [])

/-- The flag record built by collect_flags._flag_low_confidence for one
qualifying indent at position `i` of `v.indents`. -/
def mkLowConfFlag (e : Entry) (v : Variante) (i : Nat) (ind : Indent)
    (conf : Nat) : ReviewFlag :=
  { entry_id := e.xml_id, headword := e.headword, phase := "phase3",
    flag_type := "low_confidence",
    reason := "confidence=" ++ fmtConf conf ++ ", role=" ++ ind.role.value,
    context :=
      [("variante_num", ctxOptNat v.num),
       ("indent_content", .str ⟨ind.content.toList.take 200⟩),
       ("role", .str ind.role.value),
       ("confidence", .nat conf),
       ("method",
        match ind.classification_method with
        | some m => .str m.value
        | none => .null)] ++ indent_neighbors v.indents i }

/-- collect_flags._flag_low_confidence: one flag per top-level indent of
each variante reached by _all_variantes whose confidence is set, at most
the threshold, and whose role is in the risky subset. -/
def flag_low_confidence (entries : List Entry) : List ReviewFlag :=
  entries.flatMap fun e =>
    (all_variantes e).flatMap fun v =>
      v.indents.enum.flatMap fun p =>
        match p.2.classification_confidence with
        | some conf =>
          if conf ≤ low_confidence_threshold ∧ p.2.role ∈ low_confidence_roles then
            [mkLowConfFlag e v p.1 p.2 conf]
          else []
        | none => []

/-- collect_flags._flag_skipped_locutions. -/
def flag_skipped_locutions (entries : List Entry) : List ReviewFlag :=
  entries.flatMap fun e =>
    (all_variantes e).flatMap fun v =>
      v.indents.flatMap fun ind =>
        if ind.role = .locution ∧ ind.canonical_form = "" then
          [{ entry_id := e.xml_id, headword := e.headword, phase := "phase4",
             flag_type := "skipped_locution",
             reason := "no canonical form extracted",
             context :=
               [("variante_num", ctxOptNat v.num),
                ("indent_content", .str ⟨ind.content.toList.take 200⟩)] }]
        else []

/-- collect_flags._flag_large_intra. -/
def flag_large_intra (e : Entry) (v : Variante) : List ReviewFlag :=
  v.indents.flatMap fun ind =>
    if isIntraLabel ind ∧ 5 < ind.children.length then
      [{ entry_id := e.xml_id, headword := e.headword, phase := "phase5",
         flag_type := "large_intra_scope",
         reason := ind.role.value ++ " scoped " ++
           toString ind.children.length ++ " children",
         context :=
           [("variante_num", ctxOptNat v.num),
            ("indent_content", .str ⟨(strip_tags ind.content).toList.take 100⟩),
            ("num_children", .nat ind.children.length)] }]
    else []

/-- collect_flags._flag_scope_decisions: per container Variante one
scope_decision / large_scope flag and the large_intra flags of its
sub_variantes, then the large_intra flags of the top-level variantes. -/
def flag_scope_decisions (entries : List Entry) : List ReviewFlag :=
  entries.flatMap fun e =>
    (e.body_variantes.flatMap fun v =>
      if v.transition_type = "" then []
      else
        let num_scoped := v.sub_variantes.length
        let ft := if large_scope_threshold < num_scoped then "large_scope"
          else "scope_decision"
        ({ entry_id := e.xml_id, headword := e.headword, phase := "phase5",
           flag_type := ft,
           reason := v.transition_type ++ " scope, " ++
             toString num_scoped ++ " variantes",
           context :=
             [("transition_content",
               .str ⟨(strip_tags v.transition_content).toList.take 100⟩),
              ("scope_type", .str v.transition_type),
              ("transition_form", .str v.transition_form),
              ("transition_pos", .str v.transition_pos),
              ("num_scoped", .nat num_scoped),
              ("first_scoped", .str
                (match v.sub_variantes.head? with
                 | some s => ⟨(strip_tags s.content).toList.take 80⟩
                 | none => "")),
              ("last_scoped", .str
                (match v.sub_variantes.getLast? with
                 | some s => ⟨(strip_tags s.content).toList.take 80⟩
                 | none => ""))] } : ReviewFlag)
          :: v.sub_variantes.flatMap (flag_large_intra e)) ++
    e.body_variantes.flatMap (flag_large_intra e)

/-- Modelled from the spec: Python's `random.Random(seed)` (stdlib
Mersenne Twister) is an external library component; the spec only
requires "an explicitly seeded, deterministic generator independent of
any platform-global random state", so it is modelled as a linear
congruential generator on `Nat`. -/
def rngNext (s : Nat) : Nat := (s * 1103515245 + 12345) % 2147483648

/-- Modelled from the spec: `rng.sample(items, k)` — `k` distinct
elements drawn without replacement, deterministically from the generator
state, which threads on to later draws. -/
def rngSample {α : Type} : Nat → List α → Nat → List α × Nat
  | 0, _, s => ([], s)
  | _ + 1, [], s => ([], s)
  | k + 1, x :: xs, s =>
    let items := x :: xs
    let s2 := rngNext s
    let i := s2 % items.length
    let chosen := items.getD i x
    let rest := items.eraseIdx i
    let p := rngSample k rest s2
    (chosen :: p.1, p.2)

/-- The bucket traversal of _flag_calibration_sample: every indent with a
set classification_method, keyed by (role.value, method.value), in
traversal order. -/
def calibItems (entries : List Entry) :
    List ((String × String) × (Entry × Variante × Nat × Indent)) :=
  entries.flatMap fun e =>
    (all_variantes e).flatMap fun v =>
      v.indents.enum.flatMap fun p =>
        match p.2.classification_method with
        | none => []
        | some m => [((p.2.role.value, m.value), (e, v, p.1, p.2))]

/-- The distinct bucket keys in first-occurrence (dict insertion) order. -/
def insertionKeys
    (l : List ((String × String) × (Entry × Variante × Nat × Indent))) :
    List (String × String) :=
  l.foldl (fun acc kv => if acc.contains kv.1 then acc else acc ++ [kv.1]) []

/-- Code-point lexicographic string order (Python's `<` on str). -/
def strLe : List Char → List Char → Bool
  | [], _ => true
  | _ :: _, [] => false
  | x :: xs, y :: ys => if x = y then strLe xs ys else decide (x < y)

/-- Python tuple comparison on (role, method) keys, as used by
`sorted(buckets.items())`. -/
def keyLe (a b : String × String) : Bool :=
  if a.1 = b.1 then strLe a.2.toList b.2.toList
  else strLe a.1.toList b.1.toList

def insertSorted (k : String × String) :
    List (String × String) → List (String × String)
  | [] => [k]
  | x :: xs => if keyLe k x then k :: x :: xs else x :: insertSorted k xs

/-- Stable insertion sort of the (unique) bucket keys by `keyLe`. -/
def sortKeys : List (String × String) → List (String × String)
  | [] => []
  | k :: ks => insertSorted k (sortKeys ks)

/-- The flag record built by _flag_calibration_sample for one sampled
indent. -/
def mkCalibFlag (role mthd : String) (bucketSize : Nat)
    (e : Entry) (v : Variante) (i : Nat) (ind : Indent) : ReviewFlag :=
  { entry_id := e.xml_id, headword := e.headword, phase := "calibration",
    flag_type := "calibration_sample",
    reason := "sample from " ++ role ++ "/" ++ mthd ++
      " (n=" ++ toString bucketSize ++ ")",
    context :=
      [("variante_num", ctxOptNat v.num),
       ("indent_content", .str ⟨ind.content.toList.take 200⟩),
       ("role", .str role),
       ("confidence",
        match ind.classification_confidence with
        | some c => .nat c
        | none => .null),
       ("method", .str mthd),
       ("bucket_size", .nat bucketSize)] ++ indent_neighbors v.indents i }

/-- collect_flags._flag_calibration_sample with an explicit seed: group
into (role, method) buckets, then for each bucket in sorted key order
draw `min calibration_per_bucket size` items with the private seeded
generator, whose state threads across buckets. -/
def flag_calibration_sample_with (seed : Nat) (entries : List Entry) :
    List ReviewFlag :=
  let items := calibItems entries
  let keys := sortKeys (insertionKeys items)
  (keys.foldl
    (fun (acc : List ReviewFlag × Nat) key =>
      let bucket := (items.filter (fun kv => kv.1 == key)).map (·.2)
      let size := min calibration_per_bucket bucket.length
      let p := rngSample size bucket acc.2
      (acc.1 ++ p.1.map (fun t =>
        mkCalibFlag key.1 key.2 bucket.length t.1 t.2.1 t.2.2.1 t.2.2.2),
       p.2))
    ([], seed)).1

def flag_calibration_sample (entries : List Entry) : List ReviewFlag :=
  flag_calibration_sample_with calibration_seed entries

/-- collect_flags.collect_flags: concatenation of the four flag passes. -/
def collect_flags (entries : List Entry) : List ReviewFlag :=
  flag_low_confidence entries ++ flag_skipped_locutions entries ++
    flag_scope_decisions entries ++ flag_calibration_sample entries

/-- A collector run placed in an ambient pseudo-random generator state
(the interpreter's global `random` state): the collector builds its own
`Random(calibration_seed)` and never touches the ambient state, which
is returned unchanged. -/
def collect_flags_run (entries : List Entry) (ambient : Nat) :
    List ReviewFlag × Nat :=
  (collect_flags entries, ambient)

/-! ## Accessor lemmas -/

@[simp] theorem Indent.assign_content (i : Indent) (r m conf) :
    (i.assign r m conf).content = i.content := by cases i; rfl

@[simp] theorem Indent.assign_citations (i : Indent) (r m conf) :
    (i.assign r m conf).citations = i.citations := by cases i; rfl

@[simp] theorem Indent.assign_children (i : Indent) (r m conf) :
    (i.assign r m conf).children = i.children := by cases i; rfl

@[simp] theorem Indent.assign_role (i : Indent) (r m conf) :
    (i.assign r m conf).role = r := by cases i; rfl

@[simp] theorem Indent.assign_method (i : Indent) (r m conf) :
    (i.assign r m conf).classification_method = some m := by cases i; rfl

@[simp] theorem Indent.assign_confidence (i : Indent) (r m conf) :
    (i.assign r m conf).classification_confidence = some conf := by cases i; rfl

@[simp] theorem Indent.assign_canonical (i : Indent) (r m conf) :
    (i.assign r m conf).canonical_form = i.canonical_form := by cases i; rfl

@[simp] theorem Indent.withChildren_children (i : Indent) (ch) :
    (i.withChildren ch).children = ch := by cases i; rfl

@[simp] theorem Indent.withChildren_role (i : Indent) (ch) :
    (i.withChildren ch).role = i.role := by cases i; rfl

@[simp] theorem Indent.withCanonical_canonical (i : Indent) (can) :
    (i.withCanonical can).canonical_form = can := by cases i; rfl

@[simp] theorem Indent.withCanonical_role (i : Indent) (can) :
    (i.withCanonical can).role = i.role := by cases i; rfl

@[simp] theorem Indent.withCanonical_confidence (i : Indent) (can) :
    (i.withCanonical can).classification_confidence = i.classification_confidence := by
  cases i; rfl

@[simp] theorem Variante.withIndents_indents (v : Variante) (ind) :
    (v.withIndents ind).indents = ind := by cases v; rfl

@[simp] theorem Variante.withIndents_transition_type (v : Variante) (ind) :
    (v.withIndents ind).transition_type = v.transition_type := by cases v; rfl

@[simp] theorem Variante.withIndents_sub_variantes (v : Variante) (ind) :
    (v.withIndents ind).sub_variantes = v.sub_variantes := by cases v; rfl

/-! ## Claims -/

/-- C3 (code_bug evidence): the spec's claim "every Indent with non-empty
stripped text gets role ≠ unknown after classification" fails on the
code: classify_heuristic's final fallback only fires for stripped text
longer than 20 characters, so the citation-free indent "Béquille."
(9 characters of non-empty stripped text, matching no earlier rule) is
left at role unknown. The repo's own test
test_short_definition_elaboration asserts this very input is classified
elaboration, so the code contradicts its own test suite and the claim
reflects the intent. -/
theorem classify_short_text_left_unknown :
    strip_tags "Béquille." = "Béquille." ∧
    ("Béquille." : String).length = 9 ∧
    (classify_indent (.mk "Béquille." [] [] .unknown none none "")).role
      = .unknown := by
  decide

/-- C6 (counterexample): the claim says a reflexive-shape locution is
reclassified to voice_transition "and the canonical form is clear/empty".
extract_locution reclassifies but never clears canonical_form: on an
indent whose canonical form is already "x", the reclassified result still
carries canonical form "x", not "". -/
theorem extract_locution_counterexample :
    (extract_locution (.mk "S'ABAISSER, v. réfl." [] [] .locution none none "x")).role
        = .voice_transition ∧
    (extract_locution (.mk "S'ABAISSER, v. réfl." [] [] .locution none none "x")).canonical_form
        = "x" := by
  decide

/-- C6 (amended): for an Indent with role locution, extract_locution
performs exactly one of the outcomes, decided in order: (1) reflexive
shape → role voice_transition with confidence 0.9, canonical form left
unchanged (hence still empty whenever it was empty, as it always is in
the pipeline); (2) else a quoted-example span → its stripped inner text
becomes the canonical form; (3) else a comma with pre-comma segment of
at most 60 characters → that trimmed segment becomes the canonical form;
(4) otherwise (no comma, or longer segment) the indent is returned
entirely unchanged. -/
theorem extract_locution_case_analysis (i : Indent) (h : i.role = .locution) :
    (reflexive_pattern (strip_tags i.content) = true →
      (extract_locution i).role = .voice_transition ∧
      (extract_locution i).classification_confidence = some 90 ∧
      (extract_locution i).canonical_form = i.canonical_form) ∧
    (reflexive_pattern (strip_tags i.content) = false →
      ∀ inner, exemple_search i.content.toList = some inner →
        (extract_locution i).canonical_form = pyStrip ⟨inner⟩ ∧
        (extract_locution i).role = .locution) ∧
    (reflexive_pattern (strip_tags i.content) = false →
      exemple_search i.content.toList = none →
      (strip_tags i.content).toList.contains ',' = true →
      (commaForm (strip_tags i.content)).length ≤ 60 →
        (extract_locution i).canonical_form = commaForm (strip_tags i.content) ∧
        (extract_locution i).role = .locution) ∧
    (reflexive_pattern (strip_tags i.content) = false →
      exemple_search i.content.toList = none →
      ((strip_tags i.content).toList.contains ',' = false ∨
        60 < (commaForm (strip_tags i.content)).length) →
        extract_locution i = i) := by
  have hrole : ¬ i.role ≠ IndentRole.locution := by simp [h]
  refine ⟨?_, ?_, ?_, ?_⟩
  · intro hrefl
    simp [extract_locution, hrole, hrefl]
  · intro hrefl inner hin
    have hin2 : exemple_search i.content.data = some inner := hin
    simp [extract_locution, hrole, hrefl, hin2, h]
  · intro hrefl hex hcomma hlen
    have hex2 : exemple_search i.content.data = none := hex
    have hmem : ',' ∈ (strip_tags i.content).data := by simpa using hcomma
    have hgt : ¬ 60 < (commaForm (strip_tags i.content)).length := by omega
    simp [extract_locution, hrole, hrefl, hex2, hmem, hgt, h]
  · intro hrefl hex hcase
    have hex2 : exemple_search i.content.data = none := hex
    rcases hcase with hc | hl
    · have hmem : ¬ ',' ∈ (strip_tags i.content).data := by
        intro hm
        simp at hc
        exact hc hm
      simp [extract_locution, hrole, hrefl, hex2, hmem]
    · by_cases hmem : ',' ∈ (strip_tags i.content).data
      · simp [extract_locution, hrole, hrefl, hex2, hmem, hl]
      · simp [extract_locution, hrole, hrefl, hex2, hmem]

/-- C6 (witness): the claim's own instance — content
"Garder la maison, rester chez soi." with role locution yields canonical
form "Garder la maison" via case (3). -/
theorem extract_locution_case_analysis_witness :
    (extract_locution
      (.mk "Garder la maison, rester chez soi." [] [] .locution none none "")).canonical_form
      = "Garder la maison" := by
  have h :=
    ((extract_locution_case_analysis
      (.mk "Garder la maison, rester chez soi." [] [] .locution none none "")
      rfl).2.2.1 (by decide) (by decide) (by decide) (by decide)).1
  rw [h]
  decide

/-- C7: intra-variante grouping. For a Variante whose indent list is
[label1, f1, label2, f2] (labels of role nature_label or
voice_transition, followers neither, labels starting with no children),
the intra pass yields [label1, label2] with label1's children [f1] and
label2's children [f2]; and a Variante whose list is [label1, label2]
(two adjacent labels) is returned unchanged, neither label gaining
children. -/
theorem intra_grouping (l1 f1 l2 f2 : Indent) (v w : Variante)
    (log logw : ScopeLog)
    (hl1 : isIntraLabel l1 = true) (hf1 : isIntraLabel f1 = false)
    (hl2 : isIntraLabel l2 = true) (hf2 : isIntraLabel f2 = false)
    (hc1 : l1.children = []) (hc2 : l2.children = [])
    (hv : v.indents = [l1, f1, l2, f2]) (hw : w.indents = [l1, l2]) :
    (scope_intra_variante v log).1.indents =
      [l1.withChildren [f1], l2.withChildren [f2]] ∧
    (scope_intra_variante w logw).1.indents = [l1, l2] := by
  constructor
  · simp [scope_intra_variante, hv, intraGo, hl1, hf1, hl2, hf2, hc1, hc2]
  · simp [scope_intra_variante, hw, intraGo, hl1, hl2]

/-- C7 (witness): the grouping boundary instance of the spec's test
catalogue, at concrete indents. -/
theorem intra_grouping_witness :
    (scope_intra_variante
      (.mk "Main." none false false []
        [.mk "Absolument." [] [] .nature_label none none "",
         .mk "Def one." [] [] .continuation none none "",
         .mk "Au pluriel." [] [] .nature_label none none "",
         .mk "Def two." [] [] .elaboration none none ""] [] "" "" "" "" [])
      {}).1.indents =
      [(Indent.mk "Absolument." [] [] .nature_label none none "").withChildren
        [.mk "Def one." [] [] .continuation none none ""],
       (Indent.mk "Au pluriel." [] [] .nature_label none none "").withChildren
        [.mk "Def two." [] [] .elaboration none none ""]] :=
  (intra_grouping
    (.mk "Absolument." [] [] .nature_label none none "")
    (.mk "Def one." [] [] .continuation none none "")
    (.mk "Au pluriel." [] [] .nature_label none none "")
    (.mk "Def two." [] [] .elaboration none none "")
    (.mk "Main." none false false []
      [.mk "Absolument." [] [] .nature_label none none "",
       .mk "Def one." [] [] .continuation none none "",
       .mk "Au pluriel." [] [] .nature_label none none "",
       .mk "Def two." [] [] .elaboration none none ""] [] "" "" "" "" [])
    (.mk "Main." none false false []
      [.mk "Absolument." [] [] .nature_label none none "",
       .mk "Au pluriel." [] [] .nature_label none none ""] [] "" "" "" "" [])
    {} {} (by decide) (by decide) (by decide) (by decide) rfl rfl rfl rfl).1

/-- C9: calibration determinism. A collector run is modelled together
with the ambient (interpreter-global) random state; the collector draws
only from its own generator seeded with calibration_seed (the embedding
of `random.Random(calibration_seed)`), so two runs over an identical
tree — whatever the ambient states — produce the identical sequence of
calibration_sample flags (same buckets, same sampled indents, same
order). -/
theorem calibration_determinism (entries : List Entry) (a1 a2 : Nat) :
    ((collect_flags_run entries a1).1.filter fun f =>
        f.flag_type == "calibration_sample") =
    ((collect_flags_run entries a2).1.filter fun f =>
        f.flag_type == "calibration_sample") := rfl

/-- Every Tier A rule that fires assigns via Indent.assign with method
deterministic and one of the five (role, confidence) pairs of the
source. -/
theorem classify_deterministic_spec (i o : Indent)
    (h : classify_deterministic i = some o) :
    ∃ r conf, o = i.assign r .deterministic conf ∧
      (r, conf) ∈ ([(.figurative, 100), (.domain, 100), (.nature_label, 100),
        (.cross_reference, 100), (.cross_reference, 95)] :
        List (IndentRole × Nat)) := by
  unfold classify_deterministic at h
  dsimp only at h
  repeat' split at h
  all_goals first
    | exact Option.noConfusion h
    | exact ⟨_, _, (Option.some.inj h).symm, by decide⟩

/-- Every Tier B rule that fires assigns via Indent.assign with method
heuristic and one of the ten (role, confidence) pairs of the source. -/
theorem classify_heuristic_spec (i o : Indent)
    (h : classify_heuristic i = some o) :
    ∃ r conf, o = i.assign r .heuristic conf ∧
      (r, conf) ∈ ([(.proverb, 90), (.register_label, 85),
        (.voice_transition, 85), (.locution, 80), (.cross_reference, 80),
        (.elaboration, 75), (.figurative, 90), (.locution, 60),
        (.continuation, 50), (.elaboration, 40)] :
        List (IndentRole × Nat)) := by
  unfold classify_heuristic at h
  dsimp only at h
  repeat' split at h
  all_goals first
    | exact Option.noConfusion h
    | exact ⟨_, _, (Option.some.inj h).symm, by decide⟩

/-- The fixed set of confidences the classifier can attach, in
hundredths: {1.0, 0.95, 0.9, 0.85, 0.8, 0.75, 0.6, 0.5, 0.4}. -/
def classifier_confidences : List Nat := [100, 95, 90, 85, 80, 75, 60, 50, 40]

/-- C10: classifier confidence discipline. One classification step either
leaves role/method/confidence untouched and recurses into the children,
or assigns method and confidence together with the role, with the
confidence drawn from the fixed set (all within [0,1], i.e. ≤ 100 in
hundredths); every assignment whose role is in the collector's risky
subset has confidence ≥ 0.6, strictly above the low-confidence threshold
0.5, and the two lowest confidences (0.5 and 0.4) go only to the
non-risky roles continuation and elaboration — so classifier output alone
never satisfies the low_confidence flag condition. -/
theorem classifier_confidence_discipline (i : Indent) :
    ((classify_indent i).role = i.role ∧
     (classify_indent i).classification_method = i.classification_method ∧
     (classify_indent i).classification_confidence = i.classification_confidence ∧
     (classify_indent i).children = classify_children i.children) ∨
    (∃ conf mth, (classify_indent i).classification_confidence = some conf ∧
      (classify_indent i).classification_method = some mth ∧
      (classify_indent i).children = i.children ∧
      conf ∈ classifier_confidences ∧ conf ≤ 100 ∧
      ((classify_indent i).role ∈ low_confidence_roles → 60 ≤ conf) ∧
      (conf ≤ low_confidence_threshold →
        ((classify_indent i).role = .continuation ∨
         (classify_indent i).role = .elaboration))) := by
  cases i with
  | mk c cit ch r m conf can =>
    rcases hd : classify_deterministic (.mk c cit ch r m conf can) with _ | o
    · rcases hh : classify_heuristic (.mk c cit ch r m conf can) with _ | o2
      · left
        simp only [classify_indent, hd, hh]
        exact ⟨rfl, rfl, rfl, rfl⟩
      · right
        obtain ⟨r2, conf2, ho, hmem⟩ := classify_heuristic_spec _ _ hh
        have hci : classify_indent (.mk c cit ch r m conf can) =
            (Indent.mk c cit ch r m conf can).assign r2 .heuristic conf2 := by
          simp only [classify_indent, hd, hh, ho]
        rw [hci]
        fin_cases hmem
        all_goals exact ⟨_, .heuristic, rfl, rfl, rfl, by decide,
          by decide, by simp only [Indent.assign_role]; decide,
          by simp only [Indent.assign_role]; decide⟩
    · right
      obtain ⟨r2, conf2, ho, hmem⟩ := classify_deterministic_spec _ _ hd
      have hci : classify_indent (.mk c cit ch r m conf can) =
          (Indent.mk c cit ch r m conf can).assign r2 .deterministic conf2 := by
        simp only [classify_indent, hd, ho]
      rw [hci]
      fin_cases hmem
      all_goals exact ⟨_, .deterministic, rfl, rfl, rfl, by decide,
        by decide, by simp only [Indent.assign_role]; decide,
        by simp only [Indent.assign_role]; decide⟩

/-- C2 (counterexample): the claim quantifies over any v2, v3 after a v1
whose last Indent is the bare transition "S'ABAISSER, v. réfl.". When v2
is itself a scope boundary (its own last Indent a citation-free
voice_transition), the scan finds the next boundary at offset 0, records
a zero-scope outcome, leaves v1 untouched, and then scopes v2 over v3 —
yielding 3 top-level Variantes, not the claimed 2, and no container
governing [v2, v3]. -/
theorem strong_transition_counterexample :
    (scope_inter_variante
      { headword := "ABAISSER",
        body_variantes :=
          [.mk "Active sense." (some 1) false false []
            [.mk "S'ABAISSER, v. réfl." [] [] .voice_transition none none ""]
            [] "" "" "" "" [],
           .mk "Second." (some 2) false false []
            [.mk "Activement." [] [] .voice_transition none none ""]
            [] "" "" "" "" [],
           .mk "Third." (some 3) false false [] [] [] "" "" "" "" []] }
      {}).map (fun p => p.1.body_variantes.length) = some 3 := by
  decide

/-- C2 (amended): strong-transition scoping, provided that neither v2
nor v3 is itself a scope boundary. For an Entry whose top-level
Variantes are [v1, v2, v3] where v1's last Indent is a citation-free
voice_transition with stripped content "S'ABAISSER, v. réfl.", the
inter-variante pass yields exactly 2 top-level Variantes: v1 with the
trailing transition Indent removed, then a synthetic container with
transition kind "strong", derived form "S'ABAISSER", derived
part-of-speech "v. réfl.", governing [v2, v3] in order (and the log's
strong-scoped counter grows by 2). -/
theorem strong_transition_scoping (pre : List Indent) (t : Indent)
    (v1 v2 v3 : Variante) (e : Entry) (log : ScopeLog)
    (hv1 : v1.indents = pre ++ [t])
    (ht : t.role = .voice_transition) (hc : t.citations = [])
    (hp : strip_tags t.content = "S'ABAISSER, v. réfl.")
    (hb2 : isBoundary v2 = false) (hb3 : isBoundary v3 = false)
    (he : e.body_variantes = [v1, v2, v3]) :
    scope_inter_variante e log =
      some ({ e with body_variantes :=
        [v1.withIndents pre,
         .mk "" none false false [] [] [] "strong" t.content
           "S'ABAISSER" "v. réfl." [v2, v3]] },
        { log with strong_scoped := log.strong_scoped + 2 }) := by
  have hparse : parse_strong_transition "S'ABAISSER, v. réfl." =
      some ("S'ABAISSER", "v. réfl.") := by decide
  have hempty : v1.indents.isEmpty = false := by simp [hv1]
  have hlast : v1.indents.getLast? = some t := by
    simp [hv1, List.getLast?_concat]
  have hdrop : v1.indents.dropLast = pre := by
    simp [hv1, List.dropLast_concat]
  have hfind : List.findIdx? isBoundary [v2, v3] = none := by
    simp [List.findIdx?_cons, hb2, hb3]
  have hcit : t.citations.isEmpty = true := by simp [hc]
  unfold scope_inter_variante
  rw [he]
  simp only [List.length_cons, List.length_nil, Nat.reduceAdd]
  simp [scopeInterGo, hempty, hlast, ht, hcit, hp, hparse, hfind, hdrop,
    mkContainer]

/-- C2 (witness): the amended theorem at the concrete entry of the
repo's own strong-scoping test. -/
theorem strong_transition_scoping_witness :
    scope_inter_variante
      { headword := "ABAISSER",
        body_variantes :=
          [.mk "Active sense." (some 1) false false []
            [.mk "S'ABAISSER, v. réfl." [] [] .voice_transition none none ""]
            [] "" "" "" "" [],
           .mk "Reflexive one." (some 2) false false [] [] [] "" "" "" "" [],
           .mk "Reflexive two." (some 3) false false [] [] [] "" "" "" "" []] }
      {} =
      some ({ headword := "ABAISSER",
              body_variantes :=
                [(Variante.mk "Active sense." (some 1) false false []
                   [.mk "S'ABAISSER, v. réfl." [] [] .voice_transition none none ""]
                   [] "" "" "" "" []).withIndents [],
                 .mk "" none false false [] [] [] "strong" "S'ABAISSER, v. réfl."
                   "S'ABAISSER" "v. réfl."
                   [.mk "Reflexive one." (some 2) false false [] [] [] "" "" "" "" [],
                    .mk "Reflexive two." (some 3) false false [] [] [] "" "" "" "" []]] },
            { strong_scoped := 0 + 2 }) :=
  strong_transition_scoping []
    (.mk "S'ABAISSER, v. réfl." [] [] .voice_transition none none "")
    (.mk "Active sense." (some 1) false false []
      [.mk "S'ABAISSER, v. réfl." [] [] .voice_transition none none ""]
      [] "" "" "" "" [])
    (.mk "Reflexive one." (some 2) false false [] [] [] "" "" "" "" [])
    (.mk "Reflexive two." (some 3) false false [] [] [] "" "" "" "" [])
    { headword := "ABAISSER",
      body_variantes :=
        [.mk "Active sense." (some 1) false false []
          [.mk "S'ABAISSER, v. réfl." [] [] .voice_transition none none ""]
          [] "" "" "" "" [],
         .mk "Reflexive one." (some 2) false false [] [] [] "" "" "" "" [],
         .mk "Reflexive two." (some 3) false false [] [] [] "" "" "" "" []] }
    {} rfl rfl rfl (by decide) (by decide) (by decide) rfl

/-! ## Reachability and shape of the inter-variante pass -/

mutual

/-- An Indent together with all its recursive descendants. -/
def indentSubtree : Indent → List Indent
  | .mk c cit ch r m conf can => .mk c cit ch r m conf can :: indentForest ch

def indentForest : List Indent → List Indent
  | [] => []
  | i :: is => indentSubtree i ++ indentForest is

end

mutual

/-- Every Indent reachable from a Variante: its indent tree, its
rubriques' indent trees, and recursively its sub_variantes'. -/
def varianteIndents : Variante → List Indent
  | .mk _ _ _ _ _ ind rub _ _ _ _ sub =>
    indentForest ind ++ (rub.flatMap fun rb => indentForest rb.indents) ++
      varianteForest sub

def varianteForest : List Variante → List Indent
  | [] => []
  | v :: vs => varianteIndents v ++ varianteForest vs

end

/-- Every Indent reachable from an Entry. -/
def entryIndents (e : Entry) : List Indent :=
  varianteForest e.body_variantes ++
    (e.rubriques.flatMap fun rb => indentForest rb.indents)

/-- Each original Variante of a body suffix survives, in order, either
unchanged or — when it was a consumed scope boundary — with only its
trailing transition-label Indent removed. -/
inductive PreservedMod : List Variante → List Variante → Prop
  | nil : PreservedMod [] []
  | same (v : Variante) {l₁ l₂ : List Variante} :
      PreservedMod l₁ l₂ → PreservedMod (v :: l₁) (v :: l₂)
  | stripped (v : Variante) {l₁ l₂ : List Variante} :
      PreservedMod l₁ l₂ →
      PreservedMod (v :: l₁) (v.withIndents v.indents.dropLast :: l₂)

theorem PreservedMod.append_left (l : List Variante) {l₁ l₂ : List Variante}
    (h : PreservedMod l₁ l₂) : PreservedMod (l ++ l₁) (l ++ l₂) := by
  induction l with
  | nil => exact h
  | cons v vs ih => exact .same v ih

theorem PreservedMod.length_eq {l₁ l₂ : List Variante}
    (h : PreservedMod l₁ l₂) : l₂.length = l₁.length := by
  induction h with
  | nil => rfl
  | same v _ ih => simp [ih]
  | stripped v _ ih => simp [ih]

/-- The original Variantes recoverable from a post-pass top level: a
non-container stands for itself, a synthetic container for its governed
sub-Variantes. -/
def flattenTop (l : List Variante) : List Variante :=
  l.flatMap fun v => if v.transition_type = "" then [v] else v.sub_variantes

@[simp] theorem mkContainer_sub_variantes (t : Indent)
    (parsed : Option (String × String)) (governed : List Variante) :
    (mkContainer t parsed governed).sub_variantes = governed := by
  cases parsed with
  | none => rfl
  | some p => cases p; rfl

theorem mkContainer_transition_type_ne (t : Indent)
    (parsed : Option (String × String)) (governed : List Variante) :
    ¬ (mkContainer t parsed governed).transition_type = "" := by
  cases parsed with
  | none => simp [mkContainer, Variante.transition_type]
  | some p => cases p; simp [mkContainer, Variante.transition_type]

theorem findIdx?_getD_le_length {α : Type} (p : α → Bool) (l : List α) :
    ((l.findIdx? p).getD l.length) ≤ l.length := by
  rcases h : l.findIdx? p with _ | i
  · simp
  · have := (List.findIdx?_eq_some_iff_findIdx_eq.mp h).1
    simp
    omega

theorem flattenTop_cons_plain (var : Variante) (l : List Variante)
    (hvar : var.transition_type = "") :
    flattenTop (var :: l) = var :: flattenTop l := by
  simp [flattenTop, hvar]

theorem flattenTop_splice (var c : Variante) (l : List Variante)
    (hvar : var.transition_type = "") (hc : ¬ c.transition_type = "") :
    flattenTop (var.withIndents var.indents.dropLast :: c :: l) =
      var.withIndents var.indents.dropLast :: (c.sub_variantes ++ flattenTop l) := by
  simp [flattenTop, hvar, hc]

/-- The core induction on the scan-and-splice loop: on a pre-pass body
(no Variante already marked as a container), a successful run's output
flattens back to the input list modulo stripping of consumed boundary
labels. -/
theorem scopeInterGo_shape (hw : String) :
    ∀ (fuel : Nat) (body : List Variante) (log : ScopeLog)
      (out : List Variante × ScopeLog),
      (∀ v ∈ body, v.transition_type = "") →
      scopeInterGo hw fuel body log = some out →
      PreservedMod body (flattenTop out.1) := by
  intro fuel
  induction fuel with
  | zero =>
    intro body log out hpre h
    cases body with
    | nil =>
      cases h
      exact .nil
    | cons var rest => exact Option.noConfusion h
  | succ n ih =>
    intro body log out hpre h
    cases body with
    | nil =>
      cases h
      exact .nil
    | cons var rest =>
      have hvar : var.transition_type = "" := hpre var (by simp)
      have hrest : ∀ v ∈ rest, v.transition_type = "" := fun v hv =>
        hpre v (by simp [hv])
      simp only [scopeInterGo] at h
      split at h
      · obtain ⟨p, hp, rfl⟩ := Option.map_eq_some'.mp h
        rw [flattenTop_cons_plain _ _ hvar]
        exact .same var (ih rest _ p hrest hp)
      · split at h
        · exact Option.noConfusion h
        · split at h
          · obtain ⟨p, hp, rfl⟩ := Option.map_eq_some'.mp h
            rw [flattenTop_cons_plain _ _ hvar]
            exact .same var (ih rest _ p hrest hp)
          · split at h
            · obtain ⟨p, hp, rfl⟩ := Option.map_eq_some'.mp h
              rw [flattenTop_cons_plain _ _ hvar]
              exact .same var (ih rest _ p hrest hp)
            · split at h
              · obtain ⟨p, hp, rfl⟩ := Option.map_eq_some'.mp h
                rw [flattenTop_cons_plain _ _ hvar]
                exact .same var (ih rest _ p hrest hp)
              · split at h
                · obtain ⟨p, hp, rfl⟩ := Option.map_eq_some'.mp h
                  rw [flattenTop_cons_plain _ _ hvar]
                  exact .same var (ih rest _ p hrest hp)
                · obtain ⟨p, hp, rfl⟩ := Option.map_eq_some'.mp h
                  have hdropPre :
                      ∀ v ∈ rest.drop ((rest.findIdx? isBoundary).getD rest.length),
                        v.transition_type = "" :=
                    fun v hv => hrest v (List.drop_subset _ _ hv)
                  have hih := ih _ _ p hdropPre hp
                  have htake :
                      rest.take ((rest.findIdx? isBoundary).getD rest.length) ++
                        rest.drop ((rest.findIdx? isBoundary).getD rest.length) = rest :=
                    List.take_append_drop _ _
                  rw [flattenTop_splice _ _ _ hvar
                    (mkContainer_transition_type_ne _ _ _),
                    mkContainer_sub_variantes]
                  refine PreservedMod.stripped var ?_
                  have hap := PreservedMod.append_left
                    (rest.take ((rest.findIdx? isBoundary).getD rest.length)) hih
                  rw [htake] at hap
                  exact hap

theorem flattenTop_length (l : List Variante) :
    (flattenTop l).length =
      (l.filter fun v => v.transition_type == "").length +
      (l.map fun v =>
        if v.transition_type == "" then 0 else v.sub_variantes.length).sum := by
  induction l with
  | nil => simp [flattenTop]
  | cons v vs ih =>
    by_cases hv : v.transition_type = ""
    · simp only [flattenTop, List.flatMap_cons, hv, if_pos, List.filter_cons,
        List.map_cons, List.sum_cons] at ih ⊢
      simp [flattenTop] at ih
      simp [ih]
      omega
    · simp only [flattenTop, List.flatMap_cons, List.filter_cons,
        List.map_cons, List.sum_cons] at ih ⊢
      simp [flattenTop] at ih
      simp [hv, ih]
      omega

/-- C4 (counterexample): the claim says no node of any kind — in
particular the boundary Variante's trailing transition-label Indent — is
ever discarded. The inter-variante pass removes the consumed boundary
label Indent from its Variante and records only its content string on
the container: the Indent node "S'AIMER, v. réfl." occurs once among the
reachable Indents before the pass and zero times afterwards. -/
theorem scope_lossless_counterexample :
    ((entryIndents
      { headword := "AIMER",
        body_variantes :=
          [.mk "To love." (some 1) false false []
            [.mk "S'AIMER, v. réfl." [] [] .voice_transition none none ""]
            [] "" "" "" "" [],
           .mk "Reflexive." (some 2) false false [] [] [] "" "" "" "" []] }).countP
        fun i => i.content == "S'AIMER, v. réfl.") = 1 ∧
    ((scope_inter_variante
      { headword := "AIMER",
        body_variantes :=
          [.mk "To love." (some 1) false false []
            [.mk "S'AIMER, v. réfl." [] [] .voice_transition none none ""]
            [] "" "" "" "" [],
           .mk "Reflexive." (some 2) false false [] [] [] "" "" "" "" []] }
      {}).map fun p =>
        (entryIndents p.1).countP fun i => i.content == "S'AIMER, v. réfl.")
      = some 0 := by
  decide

/-- C4 (amended): the inter-variante pass is lossless on Variantes. On a
pre-pass entry (no Variante yet marked as a container), every Variante
present before the pass is present afterwards, in order, either
unchanged (at top level or re-parented into a synthetic container) or —
when it was a consumed scope boundary — at top level with only its
trailing transition-label Indent removed; no Variante is deleted or
duplicated. (The consumed label Indent itself is discarded, with its
content recorded on the container — the part the counterexample
refutes; all other Indents ride along unchanged inside their
Variantes.) -/
theorem scope_inter_lossless (e : Entry) (log : ScopeLog)
    (out : Entry × ScopeLog)
    (hpre : ∀ v ∈ e.body_variantes, v.transition_type = "")
    (h : scope_inter_variante e log = some out) :
    PreservedMod e.body_variantes (flattenTop out.1.body_variantes) := by
  obtain ⟨p, hp, rfl⟩ := Option.map_eq_some'.mp h
  simpa using scopeInterGo_shape e.headword _ _ _ _ hpre hp

def eC4 : Entry :=
  { headword := "BROSSER",
    body_variantes :=
      [.mk "Intransitive." (some 1) false false []
        [.mk "Activement." [] [] .voice_transition none none ""]
        [] "" "" "" "" [],
       .mk "Transitive sense." (some 2) false false [] [] [] "" "" "" "" []] }

def outC4 : Entry × ScopeLog :=
  (scope_inter_variante eC4 {}).getD ({ headword := "" }, {})

/-- C4 (witness): the amended losslessness at the repo's medium-scoping
test entry. -/
theorem scope_inter_lossless_witness :
    PreservedMod eC4.body_variantes (flattenTop outC4.1.body_variantes) :=
  scope_inter_lossless eC4 {} outC4 (by decide) rfl

/-- C5: scope partition. On a pre-pass entry, after the inter-variante
pass the number of Variantes remaining at top level (the non-containers)
plus the number of Variantes moved into synthetic containers equals the
original top-level Variante count — no original Variante is duplicated
or lost by the scan-and-splice loop. -/
theorem scope_partition (e : Entry) (log : ScopeLog) (out : Entry × ScopeLog)
    (hpre : ∀ v ∈ e.body_variantes, v.transition_type = "")
    (h : scope_inter_variante e log = some out) :
    (out.1.body_variantes.filter fun v => v.transition_type == "").length +
      (out.1.body_variantes.map fun v =>
        if v.transition_type == "" then 0 else v.sub_variantes.length).sum
      = e.body_variantes.length := by
  obtain ⟨p, hp, rfl⟩ := Option.map_eq_some'.mp h
  have hshape := scopeInterGo_shape e.headword _ _ _ _ hpre hp
  have hlen := hshape.length_eq
  rw [flattenTop_length] at hlen
  simpa using hlen

def eC5 : Entry :=
  { headword := "TEST",
    body_variantes :=
      [.mk "Def one." (some 1) false false []
        [.mk "Activement." [] [] .voice_transition none none ""]
        [] "" "" "" "" [],
       .mk "Active sense." (some 2) false false [] [] [] "" "" "" "" [],
       .mk "Active two." (some 3) false false []
        [.mk "Neutralement." [] [] .voice_transition none none ""]
        [] "" "" "" "" [],
       .mk "Neutral sense." (some 4) false false [] [] [] "" "" "" "" []] }

def outC5 : Entry × ScopeLog :=
  (scope_inter_variante eC5 {}).getD ({ headword := "" }, {})

/-- C5 (witness): the partition at the repo's multi-transition test
entry (2 originals stay at top level, 2 are moved into containers, 4 in
total). -/
theorem scope_partition_witness :
    (outC5.1.body_variantes.filter fun v => v.transition_type == "").length +
      (outC5.1.body_variantes.map fun v =>
        if v.transition_type == "" then 0 else v.sub_variantes.length).sum
      = eC5.body_variantes.length :=
  scope_partition eC5 {} outC5 (by decide) rfl

/-! ## Totality of the scoping phase -/

theorem isSome_map {α β : Type} (f : α → β) (o : Option α) :
    (o.map f).isSome = o.isSome := by
  cases o
  · rfl
  · rfl

/-- With fuel at least the length of the body (as the wrapper always
supplies), every guard of the scan succeeds: the one fallible access,
`var.indents[-1]`, is protected by the preceding emptiness check, and
each loop step consumes at least one Variante, so the fuel bound is
never hit. -/
theorem scopeInterGo_isSome (hw : String) :
    ∀ (fuel : Nat) (body : List Variante) (log : ScopeLog),
      body.length ≤ fuel → (scopeInterGo hw fuel body log).isSome := by
  intro fuel
  induction fuel with
  | zero =>
    intro body log h
    cases body with
    | nil => simp [scopeInterGo]
    | cons v r => simp at h
  | succ n ih =>
    intro body log h
    cases body with
    | nil => simp [scopeInterGo]
    | cons var rest =>
      have hr : rest.length ≤ n := by
        simp only [List.length_cons] at h
        omega
      simp only [scopeInterGo]
      split
      · rw [isSome_map]
        exact ih rest _ hr
      next hemp =>
        split
        next heq =>
          exfalso
          have : var.indents = [] := by
            cases hi : var.indents with
            | nil => rfl
            | cons a l =>
              rw [hi] at heq
              simp [List.getLast?_concat] at heq
          simp [this] at hemp
        next t heq =>
          split
          · rw [isSome_map]
            exact ih rest _ hr
          · split
            · rw [isSome_map]
              exact ih rest _ hr
            · split
              · rw [isSome_map]
                exact ih rest _ hr
              · split
                · rw [isSome_map]
                  exact ih rest _ hr
                · rw [isSome_map]
                  refine ih _ _ ?_
                  simp only [List.length_drop]
                  omega

theorem scopeAllGo_isSome :
    ∀ (es : List Entry) (log : ScopeLog), (scope_all.go es log).isSome := by
  intro es
  induction es with
  | nil =>
    intro log
    simp [scope_all.go]
  | cons e es ih =>
    intro log
    have h1 : (scope_inter_variante e log).isSome := by
      unfold scope_inter_variante
      rw [isSome_map]
      exact scopeInterGo_isSome e.headword _ _ _ le_rfl
    rcases hs : scope_inter_variante e log with _ | p
    · rw [hs] at h1
      simp at h1
    · rcases hgo : scope_all.go es
        (varsIntra p.1.body_variantes p.2).2 with _ | r
      · have := ih (varsIntra p.1.body_variantes p.2).2
        rw [hgo] at this
        simp at this
      · simp [scope_all.go, hs, hgo]

/-- C1: the Scope Resolver never fails fatally. For every list of
entries, scope_all (inter-variante pass, then the intra-variante pass
over every Variante and its sub-Variantes) completes: the embedding
makes each list access the Python source performs fallible, and the run
returns `some` on every input. Moreover a transition label with no
following sibling Variantes degrades to the conservative zero-scope
interpretation: the dead-transition entry is returned untouched with
only the zero_scope counter incremented. -/
theorem scope_all_never_fails :
    (∀ entries : List Entry, (scope_all entries).isSome) ∧
    scope_all
      [{ headword := "TEST",
         body_variantes :=
           [.mk "Only sense." (some 1) false false []
             [.mk "Au fém." [] [] .voice_transition none none ""]
             [] "" "" "" "" []] }] =
      some ([{ headword := "TEST",
               body_variantes :=
                 [.mk "Only sense." (some 1) false false []
                   [.mk "Au fém." [] [] .voice_transition none none ""]
                   [] "" "" "" "" []] }],
            { zero_scope := 1 }) := by
  constructor
  · intro entries
    unfold scope_all
    exact scopeAllGo_isSome entries {}
  · rfl

/-! ## Low-confidence flag coverage -/

/-- The positions the amended low-confidence coverage claim talks about:
the enumerated top-level indents of every variante reached by
_all_variantes (top-level body Variantes and containers' governed
sub-Variantes) whose confidence is set, at most the threshold, and whose
role is risky; each paired with its entry, variante, index and
confidence. -/
def lowConfTargets (entries : List Entry) :
    List (Entry × Variante × Nat × Indent × Nat) :=
  entries.flatMap fun e =>
    (all_variantes e).flatMap fun v =>
      v.indents.enum.flatMap fun p =>
        match p.2.classification_confidence with
        | some conf =>
          if conf ≤ low_confidence_threshold ∧ p.2.role ∈ low_confidence_roles then
            [(e, v, p.1, p.2, conf)]
          else []
        | none => []

theorem flag_low_confidence_eq_targets (entries : List Entry) :
    flag_low_confidence entries =
      (lowConfTargets entries).map fun t =>
        mkLowConfFlag t.1 t.2.1 t.2.2.1 t.2.2.2.1 t.2.2.2.2 := by
  unfold flag_low_confidence lowConfTargets
  rw [List.map_flatMap]
  congr 1
  funext e
  rw [List.map_flatMap]
  congr 1
  funext v
  rw [List.map_flatMap]
  congr 1
  funext p
  cases hc : p.2.classification_confidence with
  | none => simp
  | some conf =>
    by_cases hq : conf ≤ low_confidence_threshold ∧ p.2.role ∈ low_confidence_roles
    · simp [hq]
    · simp [hq]

theorem mem_flag_low_confidence_type {entries : List Entry} {f : ReviewFlag}
    (h : f ∈ flag_low_confidence entries) : f.flag_type = "low_confidence" := by
  rw [flag_low_confidence_eq_targets] at h
  obtain ⟨t, _, rfl⟩ := List.mem_map.mp h
  rfl

theorem mem_flag_skipped_locutions_type {entries : List Entry} {f : ReviewFlag}
    (h : f ∈ flag_skipped_locutions entries) : f.flag_type = "skipped_locution" := by
  simp only [flag_skipped_locutions, List.mem_flatMap] at h
  obtain ⟨e, _, v, _, ind, _, hf⟩ := h
  split at hf
  · simp at hf
    rw [hf]
  · simp at hf

theorem mem_flag_large_intra_type {e : Entry} {v : Variante} {f : ReviewFlag}
    (h : f ∈ flag_large_intra e v) : f.flag_type = "large_intra_scope" := by
  simp only [flag_large_intra, List.mem_flatMap] at h
  obtain ⟨ind, _, hf⟩ := h
  split at hf
  · simp at hf
    rw [hf]
  · simp at hf

theorem mem_flag_scope_decisions_type {entries : List Entry} {f : ReviewFlag}
    (h : f ∈ flag_scope_decisions entries) :
    f.flag_type = "scope_decision" ∨ f.flag_type = "large_scope" ∨
      f.flag_type = "large_intra_scope" := by
  simp only [flag_scope_decisions, List.mem_flatMap, List.mem_append] at h
  obtain ⟨e, _, h⟩ := h
  rcases h with ⟨v, _, hf⟩ | ⟨v, _, hf⟩
  · split at hf
    · simp at hf
    · rcases List.mem_cons.mp hf with rfl | hf2
      · by_cases hlarge : large_scope_threshold < v.sub_variantes.length
        · right; left
          simp [hlarge]
        · left
          simp [hlarge]
      · right; right
        exact mem_flag_large_intra_type (List.mem_flatMap.mp hf2).choose_spec.2
  · right; right
    exact mem_flag_large_intra_type hf

theorem mem_calib_fold_type
    (items : List ((String × String) × (Entry × Variante × Nat × Indent)))
    (keys : List (String × String)) :
    ∀ (acc : List ReviewFlag × Nat) (f : ReviewFlag),
      f ∈ (keys.foldl
        (fun (acc : List ReviewFlag × Nat) key =>
          let bucket := (items.filter (fun kv => kv.1 == key)).map (·.2)
          let size := min calibration_per_bucket bucket.length
          let p := rngSample size bucket acc.2
          (acc.1 ++ p.1.map (fun t =>
            mkCalibFlag key.1 key.2 bucket.length t.1 t.2.1 t.2.2.1 t.2.2.2),
           p.2)) acc).1 →
      f ∈ acc.1 ∨ f.flag_type = "calibration_sample" := by
  induction keys with
  | nil =>
    intro acc f h
    exact Or.inl h
  | cons k ks ih =>
    intro acc f h
    rcases ih _ f h with hmem | htype
    · rcases List.mem_append.mp hmem with hl | hr
      · exact Or.inl hl
      · right
        obtain ⟨t, _, rfl⟩ := List.mem_map.mp hr
        rfl
    · exact Or.inr htype

theorem mem_flag_calibration_sample_type {entries : List Entry} {f : ReviewFlag}
    (h : f ∈ flag_calibration_sample entries) :
    f.flag_type = "calibration_sample" := by
  unfold flag_calibration_sample flag_calibration_sample_with at h
  rcases mem_calib_fold_type _ _ _ _ h with hmem | htype
  · simp at hmem
  · exact htype

/-- C8 (counterexample): the claim quantifies over every Indent
reachable in the final tree. A risky-role Indent with confidence 0.4
that sits as a nested child of another Indent (here: a locution grouped
under a nature_label by the intra-variante pass) is reachable, risky and
below threshold, yet the collector — which scans only the top-level
indent list of each variante — emits no low_confidence flag at all,
where the claim requires exactly one. -/
theorem low_confidence_counterexample :
    ((entryIndents
      { headword := "TEST", xml_id := "test",
        body_variantes :=
          [.mk "Def." none false false []
            [.mk "Absolument." []
              [.mk "Something." [] [] .locution (some .heuristic) (some 40) ""]
              .nature_label (some .heuristic) (some 85) ""]
            [] "" "" "" "" []] }).countP fun i =>
        decide (i.role ∈ low_confidence_roles) &&
          i.classification_confidence == some 40) = 1 ∧
    ((collect_flags
      [{ headword := "TEST", xml_id := "test",
         body_variantes :=
           [.mk "Def." none false false []
             [.mk "Absolument." []
               [.mk "Something." [] [] .locution (some .heuristic) (some 40) ""]
               .nature_label (some .heuristic) (some 85) ""]
             [] "" "" "" "" []] }]).filter fun f =>
        f.flag_type == "low_confidence") = [] := by
  constructor
  · decide
  · decide

/-- C8 (amended): low-confidence flag coverage over the positions the
collector scans. The low_confidence flags the collector emits are
exactly one flag per enumerated top-level Indent of each Variante
reached by _all_variantes (top-level Variantes and containers'
sub-Variantes — not Indents nested as children, not Rubrique indents)
whose confidence is set and ≤ 0.5 and whose role is in the risky subset,
in traversal order, each built from that indent's position. -/
theorem low_confidence_coverage (entries : List Entry) :
    ((collect_flags entries).filter fun f => f.flag_type == "low_confidence") =
      (lowConfTargets entries).map fun t =>
        mkLowConfFlag t.1 t.2.1 t.2.2.1 t.2.2.2.1 t.2.2.2.2 := by
  unfold collect_flags
  rw [List.filter_append, List.filter_append, List.filter_append]
  have hA : (flag_low_confidence entries).filter
      (fun f => f.flag_type == "low_confidence") = flag_low_confidence entries := by
    rw [List.filter_eq_self]
    intro f hf
    simp [mem_flag_low_confidence_type hf]
  have hB : (flag_skipped_locutions entries).filter
      (fun f => f.flag_type == "low_confidence") = [] := by
    rw [List.filter_eq_nil_iff]
    intro f hf
    simp [mem_flag_skipped_locutions_type hf]
  have hC : (flag_scope_decisions entries).filter
      (fun f => f.flag_type == "low_confidence") = [] := by
    rw [List.filter_eq_nil_iff]
    intro f hf
    rcases mem_flag_scope_decisions_type hf with h | h | h
    · simp [h]
    · simp [h]
    · simp [h]
  have hD : (flag_calibration_sample entries).filter
      (fun f => f.flag_type == "low_confidence") = [] := by
    rw [List.filter_eq_nil_iff]
    intro f hf
    simp [mem_flag_calibration_sample_type hf]
  rw [hA, hB, hC, hD, flag_low_confidence_eq_targets]
  simp

end TeiLittre

